import Mathlib

/-!
Shallow embedding of the `medullah-multipart` library (files `src/result.rs`,
`src/file.rs`, `src/uploader.rs`) and proofs about its field-selection,
validation and persistence logic.

Modelling conventions:
* Rust `String` / `&str` values are `List Char` (`Str` below); this lets the
  character-level operations (`split`, `trim`, `split_once`, `trim_matches`)
  be embedded faithfully and reasoned about by induction.
* `ntex::util::Bytes` buffers are `List Nat` (`Bytes` below); only their
  contents and lengths matter to the code.
* The payloads of `std::io::Error` and `ntex_multipart::MultipartError` are
  opaque to this crate; they are modelled as `Nat` tags.
* The outer multipart stream is a finite list of items, each either a part
  (`Item.ok`) or a stream error (`Item.err`); a part's body is a finite list
  of chunks, each either bytes (`Chunk.ok`) or a chunk error (`Chunk.err`).
  A `HashMap` of content-disposition vars is an association list where
  `insert` replaces any existing binding, as Rust's `HashMap::insert` does.
* The `.unwrap()` on a chunk error is a panic, modelled as the distinguished
  outcome `CStatus.panicked`.
* The filesystem used by `Uploader::save` is modelled by an oracle `FsModel`
  saying which operations (create, i-th write_all, flush) fail; on success
  `save` returns the bytes written to the created (hence truncated) file.
-/

namespace Medullah

abbrev Str := List Char

abbrev Bytes := List Nat

/-- `MultipartValidationError` from `src/result.rs`. -/
inductive MultipartValidationError where
  | LowerSizeError
  | UpperSizeError
  | InvalidMimeType
  deriving DecidableEq, Repr

/-- `MultipartError` from `src/result.rs`; opaque error payloads are `Nat`. -/
inductive MultipartError where
  | IoError (e : Nat)
  | NotUploaded
  | InvalidContentType
  | InvalidContentDisposition
  | NtexError (e : Nat)
  | ValidationError (v : MultipartValidationError)
  deriving DecidableEq, Repr

/-- A header value: either one that fails `to_str()` or a valid string. -/
inductive HeaderValue where
  | invalid
  | valid (s : Str)
  deriving DecidableEq, Repr

/-- The two headers `FileInfo::create` reads from ntex's `HeaderMap`. -/
structure HeaderMap where
  content_type : Option HeaderValue
  content_disposition : Option HeaderValue
  deriving DecidableEq, Repr

/-- Rust `char::is_whitespace`, restricted to the ASCII whitespace that can
occur in a header value. -/
def isWs (c : Char) : Bool := c.isWhitespace

/-- Rust `str::trim`. -/
def trimStr (s : Str) : Str :=
  ((s.dropWhile isWs).reverse.dropWhile isWs).reverse

/-- Rust `str::split(c)` (char pattern): splitting the empty string yields
one empty piece, `"a."` yields `["a", ""]`, etc. -/
def splitOnChar (c : Char) : Str → List Str
  | [] => [[]]
  | x :: xs =>
    if x = c then [] :: splitOnChar c xs
    else
      match splitOnChar c xs with
      | [] => [[x]]
      | h :: t => (x :: h) :: t

/-- Rust `str::split_once(c)`. -/
def splitOnce (c : Char) : Str → Option (Str × Str)
  | [] => none
  | x :: xs =>
    if x = c then some ([], xs)
    else (splitOnce c xs).map (fun p => (x :: p.1, p.2))

/-- Rust `str::trim_matches(c)`: strip every leading and trailing `c`. -/
def trimMatchesChar (c : Char) (s : Str) : Str :=
  ((s.dropWhile (fun x => x == c)).reverse.dropWhile (fun x => x == c)).reverse

/-- The content-disposition variable map (`HashMap<String, String>`),
as an association list. -/
abbrev VarMap := List (Str × Str)

/-- `HashMap::insert`: replaces any existing binding for the key. -/
def VarMap.insertVar (m : VarMap) (k v : Str) : VarMap :=
  (k, v) :: m.filter (fun p => ¬ p.1 = k)

/-- `HashMap::get` (also serves `contains_key`). -/
def VarMap.getVar (m : VarMap) (k : Str) : Option Str :=
  (m.find? (fun p => p.1 == k)).map Prod.snd

/-- `FileInfo` from `src/file.rs`. -/
structure FileInfo where
  name : Str
  field : Str
  size : Nat
  content_type : Str
  extension : Option Str
  content_disposition_vars : VarMap
  deriving DecidableEq, Repr

/-- `impl Default for FileInfo` (derived in the source): empty strings,
size 0, no extension, empty map. -/
def FileInfo.default : FileInfo :=
  { name := [], field := [], size := 0, content_type := [],
    extension := none, content_disposition_vars := [] }

/-- `FileInfo::parse_content_disposition`. -/
def FileInfo.parse_content_disposition (content_disposition : Str) : VarMap :=
  (splitOnChar ';' content_disposition).foldl
    (fun vars part =>
      let part := trimStr part
      match splitOnce '=' part with
      | none => vars
      | some (key, value) =>
          vars.insertVar (trimStr key) (trimMatchesChar '"' (trimStr value)))
    []

/-- `FileInfo::get_content_type`. -/
def FileInfo.get_content_type (headers : HeaderMap) : Except MultipartError Str :=
  match headers.content_type with
  | none => .error .InvalidContentType
  | some .invalid => .error .InvalidContentType
  | some (.valid s) => .ok s

/-- `FileInfo::get_content_disposition`. -/
def FileInfo.get_content_disposition (headers : HeaderMap) : Except MultipartError Str :=
  match headers.content_disposition with
  | none => .error .InvalidContentDisposition
  | some .invalid => .error .InvalidContentDisposition
  | some (.valid s) => .ok s

/-- `FileInfo::create`. -/
def FileInfo.create (headers : HeaderMap) : Except MultipartError FileInfo :=
  match FileInfo.get_content_type headers with
  | .error e => .error e
  | .ok content_type =>
    match FileInfo.get_content_disposition headers with
    | .error e => .error e
    | .ok content_disposition =>
      let vars := FileInfo.parse_content_disposition content_disposition
      match vars.getVar ("name".data), vars.getVar ("filename".data) with
      | some field, some name =>
        let split_name := splitOnChar '.' name
        .ok { name := name, field := field, size := 0,
              content_type := content_type,
              extension := split_name.getLast?,
              content_disposition_vars := vars }
      | _, _ => .error .InvalidContentDisposition

/-- One item of a part's chunk stream (`field.next().await`):
bytes, or a chunk-level error (whose payload is opaque). -/
inductive Chunk where
  | ok (data : Bytes)
  | err (e : Nat)
  deriving DecidableEq, Repr

/-- One multipart part: its headers and its body's chunk stream. -/
structure Part where
  headers : HeaderMap
  chunks : List Chunk
  deriving DecidableEq, Repr

/-- One item of the outer multipart stream (`self.multipart.next().await`). -/
inductive Item where
  | ok (p : Part)
  | err (e : Nat)
  deriving DecidableEq, Repr

/-- The `Uploader` struct from `src/uploader.rs`: the (remaining) multipart
stream, the stored byte buffers, and the stored file info. -/
structure Uploader where
  multipart : List Item
  bytes : List Bytes
  file : FileInfo
  deriving DecidableEq, Repr

/-- `UploadData` from `src/uploader.rs`. -/
structure UploadData where
  field : Str
  lower_size : Nat
  upper_size : Option Nat
  allowed_mimes : List Str
  deriving DecidableEq, Repr

/-- `Uploader::new`: stores the stream, with empty buffers and default info. -/
def Uploader.new (multipart : List Item) : Uploader :=
  { multipart := multipart, bytes := [], file := FileInfo.default }

/-- Outcome of a call to `capture_advance`: success, an error return, or a
panic (from `chunk.unwrap()`). -/
inductive CStatus where
  | ok
  | err (e : MultipartError)
  | panicked
  deriving DecidableEq, Repr

/-- A call's outcome together with the post-state of the `Uploader`
(the stream is consumed as far as the call advanced it; `bytes` and `file`
are reassigned only on success). -/
structure CaptureRes where
  status : CStatus
  state : Uploader
  deriving DecidableEq, Repr

/-- The guard `ud.upper_size.is_some() && total_size > ud.upper_size.unwrap()`. -/
def upperExceeded (upper : Option Nat) (total : Nat) : Bool :=
  match upper with
  | none => false
  | some u => total > u

/-- Result of the inner chunk-accumulation loop of `capture_advance`. -/
inductive AccRes where
  | panicked
  | tooBig
  | done (total : Nat) (bytes : List Bytes)
  deriving DecidableEq, Repr

/-- The inner loop of `capture_advance`
(`while let Some(chunk) = field.next().await { ... }`):
unwrap the chunk (panic on `Err`), add its length to the running total,
fail if the total exceeds the upper bound, else push the buffer. -/
def accumulate (upper : Option Nat) : Nat → List Bytes → List Chunk → AccRes
  | total, acc, [] => .done total acc
  | _, _, .err _ :: _ => .panicked
  | total, acc, .ok data :: rest =>
    let total := total + data.length
    if upperExceeded upper total then .tooBig
    else accumulate upper total (acc ++ [data]) rest

/-- The outer loop of `capture_advance`
(`while let Some(item) = self.multipart.next().await { ... }`), written by
recursion on the remaining stream; `bytes0` and `file0` are the `Uploader`'s
stored buffers and info, reassigned only on successful capture. -/
def capture_loop (ud : UploadData) (bytes0 : List Bytes) (file0 : FileInfo) :
    List Item → CaptureRes
  | [] => ⟨.err .NotUploaded, ⟨[], bytes0, file0⟩⟩
  | item :: rest =>
    match item with
    | .err e => ⟨.err (.NtexError e), ⟨rest, bytes0, file0⟩⟩
    | .ok field =>
      match FileInfo.create field.headers with
      | .error e => ⟨.err e, ⟨rest, bytes0, file0⟩⟩
      | .ok info =>
        if info.field = ud.field then
          if info.content_type ∈ ud.allowed_mimes then
            ⟨.err (.ValidationError .InvalidMimeType), ⟨rest, bytes0, file0⟩⟩
          else
            match accumulate ud.upper_size 0 [] field.chunks with
            | .panicked => ⟨.panicked, ⟨rest, bytes0, file0⟩⟩
            | .tooBig => ⟨.err (.ValidationError .UpperSizeError), ⟨rest, bytes0, file0⟩⟩
            | .done total bytes =>
              if total < ud.lower_size then
                ⟨.err (.ValidationError .LowerSizeError), ⟨rest, bytes0, file0⟩⟩
              else
                ⟨.ok, ⟨rest, bytes, { info with size := total }⟩⟩
        else capture_loop ud bytes0 file0 rest

/-- `Uploader::capture_advance`. -/
def Uploader.capture_advance (ud : UploadData) (s : Uploader) : CaptureRes :=
  capture_loop ud s.bytes s.file s.multipart

/-- `Uploader::capture`: `capture_advance` with `lower_size: 0`,
`upper_size: None`, `allowed_mimes: vec![]`. -/
def Uploader.capture (fieldName : Str) (s : Uploader) : CaptureRes :=
  Uploader.capture_advance
    { field := fieldName, lower_size := 0, upper_size := none, allowed_mimes := [] } s

/-- Filesystem failure oracle for `Uploader::save`: which of `File::create`,
the i-th `write_all`, and `flush` fail, and with which `std::io::Error` tag. -/
structure FsModel where
  createErr : Option Nat
  writeErr : Nat → Option Nat
  flushErr : Option Nat

/-- The write loop of `save` (`for byte in &self.bytes { file.write_all(byte).await? }`):
on success returns the bytes written, in order. -/
def write_loop (fs : FsModel) : Nat → List Bytes → Except MultipartError (List Nat)
  | _, [] => .ok []
  | i, b :: rest =>
    match fs.writeErr i with
    | some e => .error (.IoError e)
    | none =>
      match write_loop fs (i + 1) rest with
      | .error e => .error e
      | .ok content => .ok (b ++ content)

/-- `Uploader::save`: create (truncate) the file, write every stored buffer
in order, flush; every `std::io::Error` is converted to `IoError` by the
`From` impl in `src/result.rs`. On success, returns the file's content. -/
def Uploader.save (fs : FsModel) (s : Uploader) : Except MultipartError (List Nat) :=
  match fs.createErr with
  | some e => .error (.IoError e)
  | none =>
    match write_loop fs 0 s.bytes with
    | .error e => .error e
    | .ok content =>
      match fs.flushErr with
      | some e => .error (.IoError e)
      | none => .ok content

/-- The substring of `s` after the last occurrence of `c` (all of `s` when
`c` does not occur). Comparison definition for the `extension` field,
following the spec's phrase "the substring of the filename after its
last '.'". -/
def afterLast (c : Char) (s : Str) : Str :=
  (s.reverse.takeWhile (fun x => x != c)).reverse

/-- Total length of a list of byte buffers. -/
def sumLen (bs : List Bytes) : Nat := (bs.map List.length).sum

/-- The data of a chunk, when it is not an error. -/
def chunkData : Chunk → Option Bytes
  | .ok d => some d
  | .err _ => none

/-- All filesystem operations that `save` will perform on `n` buffers
succeed. -/
def fsAllOk (fs : FsModel) (n : Nat) : Prop :=
  fs.createErr = none ∧ (∀ i, i < n → fs.writeErr i = none) ∧ fs.flushErr = none

/-- Headers in the shape the library's own tests build them:
`form-data; name="<field>"; filename="<file>"` plus a content-type. -/
def mkHeaders (fieldName fileName ct : String) : HeaderMap :=
  { content_type := some (.valid ct.data),
    content_disposition := some (.valid
      ("form-data; name=\"" ++ fieldName ++ "\"; filename=\"" ++ fileName ++ "\"").data) }

/-- The `FileInfo` a successful `FileInfo::create` on `h` produces. -/
def createdInfo (h : HeaderMap) : FileInfo :=
  match FileInfo.create h with
  | .ok i => i
  | .error _ => FileInfo.default

def pngPart : Part := ⟨mkHeaders "file" "a.png" "image/png", [.ok [1, 2, 3]]⟩

def txtPart : Part := ⟨mkHeaders "file" "a.txt" "text/plain", [.ok [1, 2, 3]]⟩

def otherPart : Part := ⟨mkHeaders "other" "b.txt" "text/plain", [.ok [9, 9, 9]]⟩

def c1ud : UploadData :=
  { field := "file".data, lower_size := 0, upper_size := none,
    allowed_mimes := ["image/png".data] }

def c2ud : UploadData :=
  { field := "file".data, lower_size := 1, upper_size := some 10,
    allowed_mimes := [] }

def c3ud : UploadData :=
  { field := "file".data, lower_size := 0, upper_size := none, allowed_mimes := [] }

def c3p : Part := ⟨mkHeaders "file" "a.png" "image/png", [.ok [7, 8]]⟩

def c5bad : Part := ⟨⟨some (.valid "image/png".data), none⟩, [.ok [1]]⟩

def c7s : Uploader := ⟨[], [[1, 2], [3]], FileInfo.default⟩

def c7fs : FsModel := ⟨none, fun _ => none, none⟩

def c7fsBad : FsModel := ⟨some 5, fun _ => none, none⟩

def c8p : Part := ⟨mkHeaders "file" "a.png" "image/png", [.ok [1], .err 3]⟩

def c9h : HeaderMap := mkHeaders "file" "archive.tar.gz" "application/gzip"

theorem splitOnChar_ne_nil (c : Char) (s : Str) : splitOnChar c s ≠ [] := by
  induction s with
  | nil => simp [splitOnChar]
  | cons x xs ih =>
    by_cases h : x = c
    · simp [splitOnChar, h]
    · simp only [splitOnChar, if_neg h]
      cases hs : splitOnChar c xs <;> simp

theorem splitOnChar_not_mem (c : Char) (s : Str) (h : c ∉ s) : splitOnChar c s = [s] := by
  induction s with
  | nil => rfl
  | cons x xs ih =>
    simp only [List.mem_cons, not_or] at h
    have hx : ¬ x = c := fun he => h.1 he.symm
    simp [splitOnChar, hx, ih h.2]

theorem two_le_splitOnChar_length (c : Char) (s : Str) (h : c ∈ s) :
    2 ≤ (splitOnChar c s).length := by
  induction s with
  | nil => cases h
  | cons x xs ih =>
    by_cases hx : x = c
    · simp only [splitOnChar, if_pos hx]
      cases hs : splitOnChar c xs with
      | nil => exact absurd hs (splitOnChar_ne_nil c xs)
      | cons a t => simp
    · have hc : c ∈ xs := by
        rcases List.mem_cons.mp h with h1 | h2
        · exact absurd h1.symm hx
        · exact h2
      simp only [splitOnChar, if_neg hx]
      cases hs : splitOnChar c xs with
      | nil => exact absurd hs (splitOnChar_ne_nil c xs)
      | cons a t =>
        have h2 := ih hc
        rw [hs] at h2
        simpa using h2

theorem takeWhile_append_of_all {α : Type} (p : α → Bool) (l l' : List α)
    (h : ∀ y ∈ l, p y = true) :
    (l ++ l').takeWhile p = l ++ l'.takeWhile p := by
  induction l with
  | nil => simp
  | cons a t ih =>
    have ha := h a (by simp)
    simp only [List.cons_append, List.takeWhile_cons, ha, if_true]
    rw [ih (fun y hy => h y (List.mem_cons_of_mem _ hy))]

theorem takeWhile_append_of_bad {α : Type} (p : α → Bool) (l l' : List α)
    (h : ∃ y ∈ l, p y = false) :
    (l ++ l').takeWhile p = l.takeWhile p := by
  induction l with
  | nil =>
    obtain ⟨y, hy, _⟩ := h
    cases hy
  | cons a t ih =>
    by_cases ha : p a
    · simp only [List.cons_append, List.takeWhile_cons, ha]
      obtain ⟨y, hy, hpy⟩ := h
      rcases List.mem_cons.mp hy with h1 | h2
      · rw [h1] at hpy; rw [hpy] at ha; cases ha
      · rw [ih ⟨y, h2, hpy⟩]
    · have ha' : p a = false := by simpa using ha
      simp [List.takeWhile_cons, ha']

theorem afterLast_not_mem (c : Char) (s : Str) (h : c ∉ s) : afterLast c s = s := by
  unfold afterLast
  rw [show s.reverse = s.reverse ++ [] from (List.append_nil _).symm,
    takeWhile_append_of_all]
  · simp
  · intro y hy
    have : y ∈ s := by simpa using List.mem_reverse.mp (by simpa using hy)
    have hne : y ≠ c := fun he => h (he ▸ this)
    simpa using hne

theorem afterLast_cons_mem (c x : Char) (xs : Str) (h : c ∈ xs) :
    afterLast c (x :: xs) = afterLast c xs := by
  unfold afterLast
  rw [List.reverse_cons, takeWhile_append_of_bad]
  exact ⟨c, List.mem_reverse.mpr h, by simp⟩

theorem afterLast_cons_not_mem (c x : Char) (xs : Str) (h : c ∉ xs) (hx : ¬ x = c) :
    afterLast c (x :: xs) = x :: xs := by
  unfold afterLast
  rw [List.reverse_cons, takeWhile_append_of_all]
  · simp [hx]
  · intro y hy
    have : y ∈ xs := List.mem_reverse.mp hy
    have hne : y ≠ c := fun he => h (he ▸ this)
    simpa using hne

theorem afterLast_cons_self (c : Char) (xs : Str) (h : c ∉ xs) :
    afterLast c (c :: xs) = xs := by
  unfold afterLast
  rw [List.reverse_cons, takeWhile_append_of_all]
  · simp
  · intro y hy
    have : y ∈ xs := List.mem_reverse.mp hy
    have hne : y ≠ c := fun he => h (he ▸ this)
    simpa using hne

theorem splitOnChar_getLast? (c : Char) (s : Str) :
    (splitOnChar c s).getLast? = some (afterLast c s) := by
  induction s with
  | nil => rfl
  | cons x xs ih =>
    by_cases hx : x = c
    · subst hx
      have hsplit : splitOnChar x (x :: xs) = [] :: splitOnChar x xs := by
        simp [splitOnChar]
      rw [hsplit]
      cases hs : splitOnChar x xs with
      | nil => exact absurd hs (splitOnChar_ne_nil x xs)
      | cons h t =>
        rw [List.getLast?_cons_cons, ← hs, ih]
        by_cases hc : x ∈ xs
        · rw [afterLast_cons_mem x x xs hc]
        · rw [afterLast_cons_self x xs hc, afterLast_not_mem x xs hc]
    · simp only [splitOnChar, if_neg hx]
      cases hs : splitOnChar c xs with
      | nil => exact absurd hs (splitOnChar_ne_nil c xs)
      | cons h t =>
        cases t with
        | nil =>
          have hc : c ∉ xs := by
            intro hmem
            have h2 := two_le_splitOnChar_length c xs hmem
            rw [hs] at h2
            simp at h2
          have hxx : h = xs := by
            have h3 := splitOnChar_not_mem c xs hc
            rw [hs] at h3
            exact (List.cons.injEq _ _ _ _ ▸ h3).1
          rw [hxx, afterLast_cons_not_mem c x xs hc hx]
          rfl
        | cons h2 t2 =>
          have hc : c ∈ xs := by
            by_contra hc
            have h3 := splitOnChar_not_mem c xs hc
            rw [hs] at h3
            simp at h3
          have ih2 : (h :: h2 :: t2).getLast? = some (afterLast c xs) := by
            rw [← hs]; exact ih
          rw [List.getLast?_cons_cons] at ih2
          rw [List.getLast?_cons_cons, ih2, afterLast_cons_mem c x xs hc]

theorem accumulate_done_ge (up : Option Nat) (cs : List Chunk) :
    ∀ t acc T bs, accumulate up t acc cs = .done T bs → t ≤ T := by
  induction cs with
  | nil =>
    intro t acc T bs h
    simp only [accumulate, AccRes.done.injEq] at h
    omega
  | cons ch rest ih =>
    intro t acc T bs h
    cases ch with
    | err e => simp [accumulate] at h
    | ok data =>
      simp only [accumulate] at h
      by_cases hb : upperExceeded up (t + data.length)
      · rw [if_pos hb] at h; cases h
      · rw [if_neg hb] at h
        have := ih _ _ _ _ h
        omega

theorem accumulate_done_le (u : Nat) (cs : List Chunk) :
    ∀ t acc T bs, accumulate (some u) t acc cs = .done T bs → T ≤ u ∨ T = t := by
  induction cs with
  | nil =>
    intro t acc T bs h
    simp only [accumulate, AccRes.done.injEq] at h
    right
    omega
  | cons ch rest ih =>
    intro t acc T bs h
    cases ch with
    | err e => simp [accumulate] at h
    | ok data =>
      simp only [accumulate] at h
      by_cases hb : upperExceeded (some u) (t + data.length)
      · rw [if_pos hb] at h; cases h
      · rw [if_neg hb] at h
        have hle : t + data.length ≤ u := by
          simp [upperExceeded] at hb
          omega
        rcases ih _ _ _ _ h with h1 | h1
        · exact Or.inl h1
        · exact Or.inl (h1 ▸ hle)

theorem accumulate_done_sum (up : Option Nat) (cs : List Chunk) :
    ∀ t acc T bs, accumulate up t acc cs = .done T bs → sumLen acc = t → sumLen bs = T := by
  induction cs with
  | nil =>
    intro t acc T bs h hs
    simp only [accumulate, AccRes.done.injEq] at h
    rw [← h.1, ← h.2]
    exact hs
  | cons ch rest ih =>
    intro t acc T bs h hs
    cases ch with
    | err e => simp [accumulate] at h
    | ok data =>
      simp only [accumulate] at h
      by_cases hb : upperExceeded up (t + data.length)
      · rw [if_pos hb] at h; cases h
      · rw [if_neg hb] at h
        refine ih _ _ _ _ h ?_
        simp [sumLen] at hs ⊢
        omega

theorem accumulate_done_bytes (up : Option Nat) (cs : List Chunk) :
    ∀ t acc T bs, accumulate up t acc cs = .done T bs →
      bs = acc ++ cs.filterMap chunkData := by
  induction cs with
  | nil =>
    intro t acc T bs h
    simp only [accumulate, AccRes.done.injEq] at h
    simp [← h.2]
  | cons ch rest ih =>
    intro t acc T bs h
    cases ch with
    | err e => simp [accumulate] at h
    | ok data =>
      simp only [accumulate] at h
      by_cases hb : upperExceeded up (t + data.length)
      · rw [if_pos hb] at h; cases h
      · rw [if_neg hb] at h
        have := ih _ _ _ _ h
        simp [this, chunkData, List.filterMap_cons]

theorem accumulate_err_head (up : Option Nat) (t : Nat) (acc : List Bytes)
    (e : Nat) (rest : List Chunk) :
    accumulate up t acc (.err e :: rest) = .panicked := rfl

theorem accumulate_over_head (up : Option Nat) (t : Nat) (acc : List Bytes)
    (data : Bytes) (rest : List Chunk)
    (h : upperExceeded up (t + data.length) = true) :
    accumulate up t acc (.ok data :: rest) = .tooBig := by
  simp [accumulate, h]

theorem get_content_type_error (headers : HeaderMap) (e : MultipartError)
    (h : FileInfo.get_content_type headers = .error e) : e = .InvalidContentType := by
  unfold FileInfo.get_content_type at h
  cases hc : headers.content_type with
  | none => rw [hc] at h; injection h with h2; exact h2.symm
  | some v =>
    cases v with
    | invalid => rw [hc] at h; injection h with h2; exact h2.symm
    | valid s => rw [hc] at h; cases h

theorem get_content_disposition_error (headers : HeaderMap) (e : MultipartError)
    (h : FileInfo.get_content_disposition headers = .error e) :
    e = .InvalidContentDisposition := by
  unfold FileInfo.get_content_disposition at h
  cases hc : headers.content_disposition with
  | none => rw [hc] at h; injection h with h2; exact h2.symm
  | some v =>
    cases v with
    | invalid => rw [hc] at h; injection h with h2; exact h2.symm
    | valid s => rw [hc] at h; cases h

theorem create_error_cases (headers : HeaderMap) (e : MultipartError)
    (h : FileInfo.create headers = .error e) :
    e = .InvalidContentType ∨ e = .InvalidContentDisposition := by
  obtain ⟨ct, cd⟩ := headers
  cases ct with
  | none =>
    left
    simpa [FileInfo.create, FileInfo.get_content_type] using h.symm
  | some v =>
    cases v with
    | invalid =>
      left
      simpa [FileInfo.create, FileInfo.get_content_type] using h.symm
    | valid s =>
      cases cd with
      | none =>
        right
        simpa [FileInfo.create, FileInfo.get_content_type,
          FileInfo.get_content_disposition] using h.symm
      | some w =>
        cases w with
        | invalid =>
          right
          simpa [FileInfo.create, FileInfo.get_content_type,
            FileInfo.get_content_disposition] using h.symm
        | valid s2 =>
          simp only [FileInfo.create, FileInfo.get_content_type,
            FileInfo.get_content_disposition] at h
          cases hn : (FileInfo.parse_content_disposition s2).getVar ("name".data) with
          | none =>
            rw [hn] at h
            cases hm : (FileInfo.parse_content_disposition s2).getVar ("filename".data) <;>
              rw [hm] at h <;> exact Or.inr (by simpa using h.symm)
          | some fld =>
            rw [hn] at h
            cases hm : (FileInfo.parse_content_disposition s2).getVar ("filename".data) with
            | none => rw [hm] at h; exact Or.inr (by simpa using h.symm)
            | some nm => rw [hm] at h; cases h

theorem capture_loop_create_err (ud : UploadData) (b : List Bytes) (f : FileInfo)
    (p : Part) (ms : List Item) (e : MultipartError)
    (hc : FileInfo.create p.headers = .error e) :
    capture_loop ud b f (.ok p :: ms) = ⟨.err e, ⟨ms, b, f⟩⟩ := by
  simp [capture_loop, hc]

theorem capture_loop_skip (ud : UploadData) (b : List Bytes) (f : FileInfo)
    (p : Part) (ms : List Item) (info : FileInfo)
    (hc : FileInfo.create p.headers = .ok info) (hf : ¬ info.field = ud.field) :
    capture_loop ud b f (.ok p :: ms) = capture_loop ud b f ms := by
  simp [capture_loop, hc, hf]

theorem capture_loop_mime (ud : UploadData) (b : List Bytes) (f : FileInfo)
    (p : Part) (ms : List Item) (info : FileInfo)
    (hc : FileInfo.create p.headers = .ok info) (hf : info.field = ud.field)
    (hm : info.content_type ∈ ud.allowed_mimes) :
    capture_loop ud b f (.ok p :: ms) =
      ⟨.err (.ValidationError .InvalidMimeType), ⟨ms, b, f⟩⟩ := by
  simp [capture_loop, hc, hf, hm]

theorem capture_loop_match_head (ud : UploadData) (b : List Bytes) (f : FileInfo)
    (p : Part) (ms : List Item) (info : FileInfo)
    (hc : FileInfo.create p.headers = .ok info) (hf : info.field = ud.field)
    (hm : info.content_type ∉ ud.allowed_mimes) :
    capture_loop ud b f (.ok p :: ms) =
      match accumulate ud.upper_size 0 [] p.chunks with
      | .panicked => ⟨.panicked, ⟨ms, b, f⟩⟩
      | .tooBig => ⟨.err (.ValidationError .UpperSizeError), ⟨ms, b, f⟩⟩
      | .done total bytes =>
        if total < ud.lower_size then
          ⟨.err (.ValidationError .LowerSizeError), ⟨ms, b, f⟩⟩
        else ⟨.ok, ⟨ms, bytes, { info with size := total }⟩⟩ := by
  simp [capture_loop, hc, hf, hm]

theorem capture_loop_match_panic (ud : UploadData) (b : List Bytes) (f : FileInfo)
    (p : Part) (ms : List Item) (info : FileInfo)
    (hc : FileInfo.create p.headers = .ok info) (hf : info.field = ud.field)
    (hm : info.content_type ∉ ud.allowed_mimes)
    (ha : accumulate ud.upper_size 0 [] p.chunks = .panicked) :
    capture_loop ud b f (.ok p :: ms) = ⟨.panicked, ⟨ms, b, f⟩⟩ := by
  simp [capture_loop, hc, hf, hm, ha]

theorem capture_loop_match_tooBig (ud : UploadData) (b : List Bytes) (f : FileInfo)
    (p : Part) (ms : List Item) (info : FileInfo)
    (hc : FileInfo.create p.headers = .ok info) (hf : info.field = ud.field)
    (hm : info.content_type ∉ ud.allowed_mimes)
    (ha : accumulate ud.upper_size 0 [] p.chunks = .tooBig) :
    capture_loop ud b f (.ok p :: ms) =
      ⟨.err (.ValidationError .UpperSizeError), ⟨ms, b, f⟩⟩ := by
  simp [capture_loop, hc, hf, hm, ha]

theorem capture_loop_match_lower (ud : UploadData) (b : List Bytes) (f : FileInfo)
    (p : Part) (ms : List Item) (info : FileInfo) (T : Nat) (bs : List Bytes)
    (hc : FileInfo.create p.headers = .ok info) (hf : info.field = ud.field)
    (hm : info.content_type ∉ ud.allowed_mimes)
    (ha : accumulate ud.upper_size 0 [] p.chunks = .done T bs)
    (hl : T < ud.lower_size) :
    capture_loop ud b f (.ok p :: ms) =
      ⟨.err (.ValidationError .LowerSizeError), ⟨ms, b, f⟩⟩ := by
  simp [capture_loop, hc, hf, hm, ha, hl]

theorem capture_loop_match_ok (ud : UploadData) (b : List Bytes) (f : FileInfo)
    (p : Part) (ms : List Item) (info : FileInfo) (T : Nat) (bs : List Bytes)
    (hc : FileInfo.create p.headers = .ok info) (hf : info.field = ud.field)
    (hm : info.content_type ∉ ud.allowed_mimes)
    (ha : accumulate ud.upper_size 0 [] p.chunks = .done T bs)
    (hl : ¬ T < ud.lower_size) :
    capture_loop ud b f (.ok p :: ms) = ⟨.ok, ⟨ms, bs, { info with size := T }⟩⟩ := by
  simp [capture_loop, hc, hf, hm, ha, hl]

theorem capture_loop_skip_all (ud : UploadData) (b : List Bytes) (f : FileInfo)
    (ps : List Part) (ms : List Item)
    (h : ∀ q ∈ ps, ∃ i, FileInfo.create q.headers = .ok i ∧ ¬ i.field = ud.field) :
    capture_loop ud b f (ps.map .ok ++ ms) = capture_loop ud b f ms := by
  induction ps with
  | nil => rfl
  | cons p rest ih =>
    obtain ⟨i, hi, hne⟩ := h p (by simp)
    rw [List.map_cons, List.cons_append, capture_loop_skip ud b f p _ i hi hne]
    exact ih (fun q hq => h q (List.mem_cons_of_mem _ hq))

theorem capture_loop_not_ok_state (ud : UploadData) (b : List Bytes) (f : FileInfo) :
    ∀ ms, (capture_loop ud b f ms).status ≠ .ok →
      (capture_loop ud b f ms).state.bytes = b ∧ (capture_loop ud b f ms).state.file = f := by
  intro ms
  induction ms with
  | nil => intro _; exact ⟨rfl, rfl⟩
  | cons item rest ih =>
    intro hne
    cases item with
    | err k => exact ⟨rfl, rfl⟩
    | ok p =>
      cases hc : FileInfo.create p.headers with
      | error e =>
        rw [capture_loop_create_err ud b f p rest e hc]
        exact ⟨rfl, rfl⟩
      | ok info =>
        by_cases hf : info.field = ud.field
        · by_cases hm : info.content_type ∈ ud.allowed_mimes
          · rw [capture_loop_mime ud b f p rest info hc hf hm]
            exact ⟨rfl, rfl⟩
          · cases ha : accumulate ud.upper_size 0 [] p.chunks with
            | panicked =>
              rw [capture_loop_match_panic ud b f p rest info hc hf hm ha]
              exact ⟨rfl, rfl⟩
            | tooBig =>
              rw [capture_loop_match_tooBig ud b f p rest info hc hf hm ha]
              exact ⟨rfl, rfl⟩
            | done T bs =>
              by_cases hl : T < ud.lower_size
              · rw [capture_loop_match_lower ud b f p rest info T bs hc hf hm ha hl]
                exact ⟨rfl, rfl⟩
              · rw [capture_loop_match_ok ud b f p rest info T bs hc hf hm ha hl] at hne
                exact absurd rfl hne
        · rw [capture_loop_skip ud b f p rest info hc hf] at hne ⊢
          exact ih hne

theorem capture_loop_ok_size (ud : UploadData) (b : List Bytes) (f : FileInfo) :
    ∀ ms, (capture_loop ud b f ms).status = .ok →
      (capture_loop ud b f ms).state.file.size = sumLen (capture_loop ud b f ms).state.bytes := by
  intro ms
  induction ms with
  | nil => intro h; cases h
  | cons item rest ih =>
    intro hok
    cases item with
    | err k => cases hok
    | ok p =>
      cases hc : FileInfo.create p.headers with
      | error e =>
        rw [capture_loop_create_err ud b f p rest e hc] at hok
        cases hok
      | ok info =>
        by_cases hf : info.field = ud.field
        · by_cases hm : info.content_type ∈ ud.allowed_mimes
          · rw [capture_loop_mime ud b f p rest info hc hf hm] at hok
            cases hok
          · cases ha : accumulate ud.upper_size 0 [] p.chunks with
            | panicked =>
              rw [capture_loop_match_panic ud b f p rest info hc hf hm ha] at hok
              cases hok
            | tooBig =>
              rw [capture_loop_match_tooBig ud b f p rest info hc hf hm ha] at hok
              cases hok
            | done T bs =>
              by_cases hl : T < ud.lower_size
              · rw [capture_loop_match_lower ud b f p rest info T bs hc hf hm ha hl] at hok
                cases hok
              · rw [capture_loop_match_ok ud b f p rest info T bs hc hf hm ha hl]
                exact (accumulate_done_sum ud.upper_size p.chunks 0 [] T bs ha rfl).symm
        · rw [capture_loop_skip ud b f p rest info hc hf] at hok ⊢
          exact ih hok

theorem capture_loop_ntex (ud : UploadData) (b : List Bytes) (f : FileInfo) :
    ∀ ms e, (capture_loop ud b f ms).status = .err (.NtexError e) →
      ∃ pre rest, ms = pre ++ .err e :: rest := by
  intro ms
  induction ms with
  | nil => intro e h; cases h
  | cons item rest ih =>
    intro e h
    cases item with
    | err k =>
      have : (MultipartError.NtexError k) = (MultipartError.NtexError e) := by
        simpa [capture_loop] using h
      refine ⟨[], rest, ?_⟩
      cases this
      rfl
    | ok p =>
      cases hc : FileInfo.create p.headers with
      | error e2 =>
        rw [capture_loop_create_err ud b f p rest e2 hc] at h
        have he : e2 = .NtexError e := by simpa using h
        rcases create_error_cases p.headers e2 hc with h1 | h1 <;> simp [h1] at he
      | ok info =>
        by_cases hf : info.field = ud.field
        · by_cases hm : info.content_type ∈ ud.allowed_mimes
          · rw [capture_loop_mime ud b f p rest info hc hf hm] at h
            cases h
          · cases ha : accumulate ud.upper_size 0 [] p.chunks with
            | panicked =>
              rw [capture_loop_match_panic ud b f p rest info hc hf hm ha] at h
              cases h
            | tooBig =>
              rw [capture_loop_match_tooBig ud b f p rest info hc hf hm ha] at h
              cases h
            | done T bs =>
              by_cases hl : T < ud.lower_size
              · rw [capture_loop_match_lower ud b f p rest info T bs hc hf hm ha hl] at h
                cases h
              · rw [capture_loop_match_ok ud b f p rest info T bs hc hf hm ha hl] at h
                cases h
        · rw [capture_loop_skip ud b f p rest info hc hf] at h
          obtain ⟨pre, rest2, hsp⟩ := ih e h
          exact ⟨.ok p :: pre, rest2, by rw [hsp]; rfl⟩

theorem afterLast_of_getLast_self (c : Char) (s : Str) (h : s.getLast? = some c) :
    afterLast c s = [] := by
  unfold afterLast
  rw [List.getLast?_eq_head?_reverse] at h
  cases hr : s.reverse with
  | nil => rw [hr] at h; cases h
  | cons a t =>
    rw [hr] at h
    have ha : a = c := by simpa using h
    rw [ha]
    simp [List.takeWhile_cons]

theorem create_ok_extension (headers : HeaderMap) (info : FileInfo)
    (h : FileInfo.create headers = .ok info) :
    info.extension = (splitOnChar '.' info.name).getLast? := by
  obtain ⟨ct, cd⟩ := headers
  cases ct with
  | none => simp [FileInfo.create, FileInfo.get_content_type] at h
  | some v =>
    cases v with
    | invalid => simp [FileInfo.create, FileInfo.get_content_type] at h
    | valid s =>
      cases cd with
      | none =>
        simp [FileInfo.create, FileInfo.get_content_type,
          FileInfo.get_content_disposition] at h
      | some w =>
        cases w with
        | invalid =>
          simp [FileInfo.create, FileInfo.get_content_type,
            FileInfo.get_content_disposition] at h
        | valid s2 =>
          simp only [FileInfo.create, FileInfo.get_content_type,
            FileInfo.get_content_disposition] at h
          cases hn : (FileInfo.parse_content_disposition s2).getVar ("name".data) with
          | none =>
            rw [hn] at h
            cases hm : (FileInfo.parse_content_disposition s2).getVar ("filename".data) <;>
              rw [hm] at h <;> cases h
          | some fld =>
            rw [hn] at h
            cases hm : (FileInfo.parse_content_disposition s2).getVar ("filename".data) with
            | none => rw [hm] at h; cases h
            | some nm =>
              rw [hm] at h
              injection h with h2
              rw [← h2]

theorem capture_loop_ok_bounds (ud : UploadData) (b : List Bytes) (f : FileInfo) :
    ∀ ms, (capture_loop ud b f ms).status = .ok →
      ud.lower_size ≤ (capture_loop ud b f ms).state.file.size ∧
      (∀ u, ud.upper_size = some u → (capture_loop ud b f ms).state.file.size ≤ u) := by
  intro ms
  induction ms with
  | nil => intro h; cases h
  | cons item rest ih =>
    intro hok
    cases item with
    | err k => cases hok
    | ok p =>
      cases hc : FileInfo.create p.headers with
      | error e =>
        rw [capture_loop_create_err ud b f p rest e hc] at hok
        cases hok
      | ok info =>
        by_cases hf : info.field = ud.field
        · by_cases hm : info.content_type ∈ ud.allowed_mimes
          · rw [capture_loop_mime ud b f p rest info hc hf hm] at hok
            cases hok
          · cases ha : accumulate ud.upper_size 0 [] p.chunks with
            | panicked =>
              rw [capture_loop_match_panic ud b f p rest info hc hf hm ha] at hok
              cases hok
            | tooBig =>
              rw [capture_loop_match_tooBig ud b f p rest info hc hf hm ha] at hok
              cases hok
            | done T bs =>
              by_cases hl : T < ud.lower_size
              · rw [capture_loop_match_lower ud b f p rest info T bs hc hf hm ha hl] at hok
                cases hok
              · rw [capture_loop_match_ok ud b f p rest info T bs hc hf hm ha hl]
                constructor
                · simpa using Nat.le_of_not_lt hl
                · intro u hu
                  rw [hu] at ha
                  have := accumulate_done_le u p.chunks 0 [] T bs ha
                  simp only
                  omega
        · rw [capture_loop_skip ud b f p rest info hc hf] at hok ⊢
          exact ih hok

theorem write_loop_ok (fs : FsModel) :
    ∀ bs k, (∀ i, i < bs.length → fs.writeErr (k + i) = none) →
      write_loop fs k bs = .ok bs.flatten := by
  intro bs
  induction bs with
  | nil => intro k _; simp [write_loop]
  | cons b rest ih =>
    intro k h
    have h0 : fs.writeErr k = none := by simpa using h 0 (by simp)
    have hrest : ∀ i, i < rest.length → fs.writeErr (k + 1 + i) = none := by
      intro i hi
      have := h (i + 1) (by simpa using Nat.succ_lt_succ hi)
      rwa [show k + (i + 1) = k + 1 + i by omega] at this
    simp [write_loop, h0, ih (k + 1) hrest]

theorem write_loop_err (fs : FsModel) :
    ∀ bs k, (∃ i, i < bs.length ∧ ¬ fs.writeErr (k + i) = none) →
      ∃ e, write_loop fs k bs = .error (.IoError e) := by
  intro bs
  induction bs with
  | nil =>
    intro k h
    obtain ⟨i, hi, _⟩ := h
    simp at hi
  | cons b rest ih =>
    intro k h
    cases h0 : fs.writeErr k with
    | some e => exact ⟨e, by simp [write_loop, h0]⟩
    | none =>
      obtain ⟨i, hi, hbad⟩ := h
      cases i with
      | zero => rw [Nat.add_zero] at hbad; exact absurd h0 hbad
      | succ j =>
        have hj : j < rest.length := by simpa using hi
        obtain ⟨e, he⟩ := ih (k + 1) ⟨j, hj, by
          rwa [show k + 1 + j = k + (j + 1) by omega]⟩
        exact ⟨e, by simp [write_loop, h0, he]⟩

/-- C1: the claim says `capture_advance` returns
`ValidationError(InvalidMimeType)` exactly when the matched part's content
type is NOT contained in `allowed_mimes`, and proceeds when it IS contained.
The code does the opposite: `if ud.allowed_mimes.contains(&&*info.content_type)
{ return Err(ValidationError(InvalidMimeType)) }` rejects exactly the listed
types. On a part whose content type `image/png` is in `allowed_mimes` the call
fails with `InvalidMimeType`, and on a part whose content type `text/plain` is
not in the list the capture proceeds and succeeds. -/
theorem C1_mime_check_inverted :
    "image/png".data ∈ c1ud.allowed_mimes ∧
    (Uploader.capture_advance c1ud (Uploader.new [.ok pngPart])).status
      = .err (.ValidationError .InvalidMimeType) ∧
    "text/plain".data ∉ c1ud.allowed_mimes ∧
    (Uploader.capture_advance c1ud (Uploader.new [.ok txtPart])).status = .ok := by
  refine ⟨by decide, by decide, by decide, by decide⟩

/-- C2: size-bound enforcement in `capture_advance`. (a) While accumulating
the matched part's chunks, as soon as the running total strictly exceeds
`upper_size = some u` the loop stops with `tooBig` — for every continuation
`rest` of the chunk stream — and the call returns
`ValidationError(UpperSizeError)`. (b) After all chunks are consumed the call
returns `ValidationError(LowerSizeError)` iff the total is strictly below
`lower_size`. (c) Every successful capture satisfies
`lower_size ≤ size` and `size ≤ u` when `upper_size = some u`. -/
theorem C2_size_bounds (ud : UploadData) (s : Uploader) (b : List Bytes)
    (f : FileInfo) (p : Part) (ms : List Item) (info : FileInfo) (u T t : Nat)
    (acc bs : List Bytes) (data : Bytes) (rest : List Chunk) :
    (ud.upper_size = some u → t + data.length > u →
      accumulate ud.upper_size t acc (.ok data :: rest) = .tooBig) ∧
    (FileInfo.create p.headers = .ok info → info.field = ud.field →
      info.content_type ∉ ud.allowed_mimes →
      accumulate ud.upper_size 0 [] p.chunks = .tooBig →
      (capture_loop ud b f (.ok p :: ms)).status
        = .err (.ValidationError .UpperSizeError)) ∧
    (FileInfo.create p.headers = .ok info → info.field = ud.field →
      info.content_type ∉ ud.allowed_mimes →
      accumulate ud.upper_size 0 [] p.chunks = .done T bs →
      ((capture_loop ud b f (.ok p :: ms)).status
          = .err (.ValidationError .LowerSizeError) ↔ T < ud.lower_size)) ∧
    ((Uploader.capture_advance ud s).status = .ok →
      ud.lower_size ≤ (Uploader.capture_advance ud s).state.file.size ∧
      (ud.upper_size = some u →
        (Uploader.capture_advance ud s).state.file.size ≤ u)) := by
  refine ⟨?_, ?_, ?_, ?_⟩
  · intro hu hgt
    apply accumulate_over_head
    rw [hu]
    simp [upperExceeded]
    omega
  · intro hc hf hm ha
    rw [capture_loop_match_tooBig ud b f p ms info hc hf hm ha]
  · intro hc hf hm ha
    constructor
    · intro hst
      by_contra hl
      rw [capture_loop_match_ok ud b f p ms info T bs hc hf hm ha hl] at hst
      cases hst
    · intro hl
      rw [capture_loop_match_lower ud b f p ms info T bs hc hf hm ha hl]
  · intro hok
    have h := capture_loop_ok_bounds ud s.bytes s.file s.multipart hok
    exact ⟨h.1, fun hu => h.2 u hu⟩

/-- C2 witness: with `lower_size = 1` and `upper_size = some 10`, capturing a
3-byte `image/png` part succeeds and its recorded size respects both bounds. -/
theorem C2_size_bounds_witness :
    (Uploader.capture_advance c2ud (Uploader.new [.ok pngPart])).status = .ok ∧
    c2ud.lower_size ≤
      (Uploader.capture_advance c2ud (Uploader.new [.ok pngPart])).state.file.size ∧
    (Uploader.capture_advance c2ud (Uploader.new [.ok pngPart])).state.file.size ≤ 10 := by
  have hok : (Uploader.capture_advance c2ud (Uploader.new [.ok pngPart])).status = .ok := by
    decide
  have h := (C2_size_bounds c2ud (Uploader.new [.ok pngPart]) [] FileInfo.default
    pngPart [] FileInfo.default 10 0 0 [] [] [] []).2.2.2 hok
  exact ⟨hok, h.1, h.2 rfl⟩

/-- C3: `capture_advance` scans parts in stream order and selects the first
part whose content-disposition `name` equals the requested field. Every
earlier part that parses to a different name is skipped without its body
being read (the result does not depend on those parts' chunks — the prefix
is dropped wholesale), and on success the stored `FileInfo` comes from that
first matching part (with its accumulated size) and the stored buffers are
exactly the data chunks of that part's body. -/
theorem C3_first_match (ud : UploadData) (b : List Bytes) (f : FileInfo)
    (pre : List Part) (p : Part) (ms : List Item) (info : FileInfo)
    (T : Nat) (bs : List Bytes)
    (hpre : ∀ q ∈ pre, ∃ i, FileInfo.create q.headers = .ok i ∧ ¬ i.field = ud.field)
    (hc : FileInfo.create p.headers = .ok info) (hf : info.field = ud.field) :
    capture_loop ud b f (pre.map .ok ++ .ok p :: ms) = capture_loop ud b f (.ok p :: ms) ∧
    (info.content_type ∉ ud.allowed_mimes →
      accumulate ud.upper_size 0 [] p.chunks = .done T bs →
      ¬ T < ud.lower_size →
      capture_loop ud b f (pre.map .ok ++ .ok p :: ms)
          = ⟨.ok, ⟨ms, bs, { info with size := T }⟩⟩ ∧
        bs = p.chunks.filterMap chunkData) := by
  have hskip := capture_loop_skip_all ud b f pre (.ok p :: ms) hpre
  refine ⟨hskip, ?_⟩
  intro hm ha hl
  constructor
  · rw [hskip, capture_loop_match_ok ud b f p ms info T bs hc hf hm ha hl]
  · simpa using accumulate_done_bytes ud.upper_size p.chunks 0 [] T bs ha

/-- C3 witness: with a non-matching `other` part ahead of the matching `file`
part, the capture skips the first part, succeeds on the second, and stores
exactly its two data bytes and its parsed info with size 2. -/
theorem C3_first_match_witness :
    capture_loop c3ud [[5]] FileInfo.default ([otherPart].map .ok ++ .ok c3p :: [])
        = ⟨.ok, ⟨[], [[7, 8]], { createdInfo c3p.headers with size := 2 }⟩⟩ ∧
      [[7, 8]] = c3p.chunks.filterMap chunkData := by
  have h := C3_first_match c3ud [[5]] FileInfo.default [otherPart] c3p []
    (createdInfo c3p.headers) 2 [[7, 8]]
    (by
      intro q hq
      have hq2 : q = otherPart := by simpa using hq
      subst hq2
      exact ⟨createdInfo otherPart.headers, rfl, by decide⟩)
    rfl (by decide)
  exact h.2 (by decide) (by decide) (by decide)

/-- C4: if the stream is exhausted with every part parsing successfully and
none having the requested field name, `capture_advance` returns
`Err(NotUploaded)` with the stored bytes and file info unchanged — and so
does `capture`, which delegates to it with default bounds. -/
theorem C4_not_uploaded (ud : UploadData) (fn : Str) (s : Uploader) (ps : List Part)
    (hs : s.multipart = ps.map .ok)
    (h1 : ∀ q ∈ ps, ∃ i, FileInfo.create q.headers = .ok i ∧ ¬ i.field = ud.field)
    (h2 : ∀ q ∈ ps, ∃ i, FileInfo.create q.headers = .ok i ∧ ¬ i.field = fn) :
    Uploader.capture_advance ud s = ⟨.err .NotUploaded, ⟨[], s.bytes, s.file⟩⟩ ∧
    Uploader.capture fn s = ⟨.err .NotUploaded, ⟨[], s.bytes, s.file⟩⟩ := by
  constructor
  · show capture_loop ud s.bytes s.file s.multipart = _
    rw [hs]
    have h := capture_loop_skip_all ud s.bytes s.file ps [] h1
    rw [List.append_nil] at h
    rw [h]
    rfl
  · show capture_loop _ s.bytes s.file s.multipart = _
    rw [hs]
    have h := capture_loop_skip_all
      { field := fn, lower_size := 0, upper_size := none, allowed_mimes := [] }
      s.bytes s.file ps [] h2
    rw [List.append_nil] at h
    rw [h]
    rfl

/-- C4 witness: a stream holding only a part named `other` leaves a capture
of field `file` with `NotUploaded` and the state's buffers and info intact. -/
theorem C4_not_uploaded_witness :
    Uploader.capture_advance c3ud (Uploader.new [.ok otherPart])
        = ⟨.err .NotUploaded, ⟨[], [], FileInfo.default⟩⟩ ∧
      Uploader.capture ("file".data) (Uploader.new [.ok otherPart])
        = ⟨.err .NotUploaded, ⟨[], [], FileInfo.default⟩⟩ := by
  have h := C4_not_uploaded c3ud ("file".data) (Uploader.new [.ok otherPart]) [otherPart]
    rfl
    (by
      intro q hq
      have hq2 : q = otherPart := by simpa using hq
      subst hq2
      exact ⟨createdInfo otherPart.headers, rfl, by decide⟩)
    (by
      intro q hq
      have hq2 : q = otherPart := by simpa using hq
      subst hq2
      exact ⟨createdInfo otherPart.headers, rfl, by decide⟩)
  exact h

/-- C5: header metadata is parsed for every encountered part, matching or
not. (a) If the content-type header is missing or fails `to_str()`,
`FileInfo::create` returns `InvalidContentType`. (b) With a readable
content-type, if the content-disposition header is missing, fails
`to_str()`, or its parsed variables lack a `name` or a `filename` key, the
result is `InvalidContentDisposition` (content-type is checked first, so
these cases presuppose a readable content-type). (c) A part that fails
header parsing aborts the whole capture with that error even when it sits
behind skippable non-matching parts — so a malformed non-target part aborts
the capture. -/
theorem C5_header_parsing (ud : UploadData) (b : List Bytes) (f : FileInfo)
    (p : Part) (ms : List Item) (pre : List Part) (e : MultipartError)
    (hv : HeaderMap) :
    (hv.content_type = none ∨ hv.content_type = some .invalid →
      FileInfo.create hv = .error .InvalidContentType) ∧
    (∀ ct, hv.content_type = some (.valid ct) →
      (hv.content_disposition = none ∨ hv.content_disposition = some .invalid ∨
        (∃ cd, hv.content_disposition = some (.valid cd) ∧
          ((FileInfo.parse_content_disposition cd).getVar ("name".data) = none ∨
           (FileInfo.parse_content_disposition cd).getVar ("filename".data) = none))) →
      FileInfo.create hv = .error .InvalidContentDisposition) ∧
    ((∀ q ∈ pre, ∃ i, FileInfo.create q.headers = .ok i ∧ ¬ i.field = ud.field) →
      FileInfo.create p.headers = .error e →
      capture_loop ud b f (pre.map .ok ++ .ok p :: ms) = ⟨.err e, ⟨ms, b, f⟩⟩) := by
  refine ⟨?_, ?_, ?_⟩
  · rintro (h | h) <;>
      simp [FileInfo.create, FileInfo.get_content_type, h]
  · rintro ct hct (h | h | ⟨cd, hcd, hvar⟩)
    · simp [FileInfo.create, FileInfo.get_content_type, hct,
        FileInfo.get_content_disposition, h]
    · simp [FileInfo.create, FileInfo.get_content_type, hct,
        FileInfo.get_content_disposition, h]
    · simp only [FileInfo.create, FileInfo.get_content_type, hct,
        FileInfo.get_content_disposition, hcd]
      rcases hvar with hn | hm
      · rw [hn]
      · rw [hm]
        cases (FileInfo.parse_content_disposition cd).getVar ("name".data) <;> rfl
  · intro hpre hc
    rw [capture_loop_skip_all ud b f pre (.ok p :: ms) hpre,
      capture_loop_create_err ud b f p ms e hc]

/-- C5 witness: a part with a readable content-type but no
content-disposition header, sitting behind a skippable non-matching part,
aborts the capture with `InvalidContentDisposition`. -/
theorem C5_header_parsing_witness :
    FileInfo.create c5bad.headers = .error .InvalidContentDisposition ∧
    capture_loop c3ud [] FileInfo.default ([otherPart].map .ok ++ .ok c5bad :: [])
      = ⟨.err .InvalidContentDisposition, ⟨[], [], FileInfo.default⟩⟩ := by
  have h := C5_header_parsing c3ud [] FileInfo.default c5bad [] [otherPart]
    .InvalidContentDisposition c5bad.headers
  refine ⟨?_, ?_⟩
  · exact h.2.1 ("image/png".data) rfl (Or.inl rfl)
  · exact h.2.2
      (by
        intro q hq
        have hq2 : q = otherPart := by simpa using hq
        subst hq2
        exact ⟨createdInfo otherPart.headers, rfl, by decide⟩)
      (h.2.1 ("image/png".data) rfl (Or.inl rfl))

/-- C6: rejection is atomic. Whenever `capture_advance` returns an error,
the `Uploader`'s stored byte buffers and file info are exactly as before the
call, and — since `save` reads only the stored buffers — what a later `save`
would write to disk is also unchanged. The capture itself performs no disk
operation: bytes reach disk only through `save`. -/
theorem C6_rejection_atomic (ud : UploadData) (s : Uploader) (e : MultipartError)
    (h : (Uploader.capture_advance ud s).status = .err e) :
    (Uploader.capture_advance ud s).state.bytes = s.bytes ∧
    (Uploader.capture_advance ud s).state.file = s.file ∧
    ∀ fs : FsModel,
      Uploader.save fs (Uploader.capture_advance ud s).state = Uploader.save fs s := by
  have hne : (Uploader.capture_advance ud s).status ≠ .ok := by
    rw [h]; intro hc; cases hc
  have hp := capture_loop_not_ok_state ud s.bytes s.file s.multipart hne
  refine ⟨hp.1, hp.2, ?_⟩
  intro fs
  show Uploader.save fs (capture_loop ud s.bytes s.file s.multipart).state = _
  unfold Uploader.save
  rw [hp.1]

/-- C6 witness: an empty stream errors with `NotUploaded` and leaves the
bytes, the file info, and the would-be disk content unchanged. -/
theorem C6_rejection_atomic_witness :
    (Uploader.capture_advance c3ud (Uploader.new [])).state.bytes = [] ∧
    (Uploader.capture_advance c3ud (Uploader.new [])).state.file = FileInfo.default ∧
    ∀ fs : FsModel,
      Uploader.save fs (Uploader.capture_advance c3ud (Uploader.new [])).state
        = Uploader.save fs (Uploader.new []) := by
  exact C6_rejection_atomic c3ud (Uploader.new []) .NotUploaded rfl

/-- C7: persistence is pass-through. When every filesystem operation
succeeds, `save` writes exactly the concatenation, in capture order, of the
stored byte buffers to the created (truncated) file and returns success;
when any operation (create, a write, flush) fails, it returns
`Err(IoError(_))` wrapping that error. -/
theorem C7_save_passthrough (fs : FsModel) (s : Uploader) :
    (fsAllOk fs s.bytes.length → Uploader.save fs s = .ok s.bytes.flatten) ∧
    (¬ fsAllOk fs s.bytes.length →
      ∃ e, Uploader.save fs s = .error (.IoError e)) := by
  constructor
  · rintro ⟨hc, hw, hf⟩
    have hwl := write_loop_ok fs s.bytes 0 (by simpa using hw)
    simp [Uploader.save, hc, hwl, hf]
  · intro hno
    cases hc : fs.createErr with
    | some e => exact ⟨e, by simp [Uploader.save, hc]⟩
    | none =>
      by_cases hw : ∀ i, i < s.bytes.length → fs.writeErr i = none
      · have hwl := write_loop_ok fs s.bytes 0 (by simpa using hw)
        cases hf : fs.flushErr with
        | some e => exact ⟨e, by simp [Uploader.save, hc, hwl, hf]⟩
        | none => exact absurd ⟨hc, hw, hf⟩ hno
      · push_neg at hw
        obtain ⟨i, hi, hbad⟩ := hw
        obtain ⟨e, he⟩ := write_loop_err fs s.bytes 0 ⟨i, hi, by simpa using hbad⟩
        exact ⟨e, by simp [Uploader.save, hc, he]⟩

/-- C7 witness: with an all-successful filesystem, saving the buffers
`[[1,2],[3]]` writes `[1,2,3]`; with a failing `File::create`, the result is
`IoError`. -/
theorem C7_save_passthrough_witness :
    Uploader.save c7fs c7s = .ok [1, 2, 3] ∧
    ∃ e, Uploader.save c7fsBad c7s = .error (.IoError e) := by
  constructor
  · exact (C7_save_passthrough c7fs c7s).1 ⟨rfl, fun i _ => rfl, rfl⟩
  · exact (C7_save_passthrough c7fsBad c7s).2 (by
      rintro ⟨hc, _, _⟩
      cases hc)

/-- C8: a chunk-stream error on the matched part makes `capture_advance`
panic (the `chunk.unwrap()`), not return a `MultipartError`: (a) the
accumulation loop panics the moment it meets an `Err` chunk, whatever
follows; (b) a matching part whose accumulation panics makes the whole call
panic; (c) conversely `NtexError` can only arise from an `Err` item of the
outer part stream. -/
theorem C8_chunk_error_panics (ud : UploadData) (b : List Bytes) (f : FileInfo)
    (p : Part) (ms ms2 : List Item) (info : FileInfo) (t : Nat)
    (acc : List Bytes) (k e : Nat) (rest : List Chunk) :
    accumulate ud.upper_size t acc (.err k :: rest) = .panicked ∧
    (FileInfo.create p.headers = .ok info → info.field = ud.field →
      info.content_type ∉ ud.allowed_mimes →
      accumulate ud.upper_size 0 [] p.chunks = .panicked →
      (capture_loop ud b f (.ok p :: ms)).status = .panicked) ∧
    ((capture_loop ud b f ms2).status = .err (.NtexError e) →
      ∃ pre rest2, ms2 = pre ++ .err e :: rest2) := by
  refine ⟨rfl, ?_, ?_⟩
  · intro hc hf hm ha
    rw [capture_loop_match_panic ud b f p ms info hc hf hm ha]
  · exact capture_loop_ntex ud b f ms2 e

/-- C8 witness: a matching part whose second chunk is an error panics the
capture, and a stream whose head is an `Err` item yields `NtexError` from a
stream of that shape. -/
theorem C8_chunk_error_panics_witness :
    (capture_loop c3ud [] FileInfo.default [.ok c8p]).status = .panicked ∧
    ∃ pre rest2, ([Item.err 4] : List Item) = pre ++ .err 4 :: rest2 := by
  have h := C8_chunk_error_panics c3ud [] FileInfo.default c8p [] [.err 4]
    (createdInfo c8p.headers) 0 [] 0 4 []
  refine ⟨?_, ?_⟩
  · exact h.2.1 rfl (by decide) (by decide) (by decide)
  · exact h.2.2 (by decide)

/-- C9: on every successful `FileInfo::create` the `extension` field is
`Some`: it equals the substring of the filename after its last `'.'`
(the last piece of `filename.split('.')`); for a filename with no `'.'`
it is `Some` of the entire filename, and for a filename ending in `'.'`
it is `Some ""`. -/
theorem C9_extension_always_some (headers : HeaderMap) (info : FileInfo)
    (h : FileInfo.create headers = .ok info) :
    info.extension = some (afterLast '.' info.name) ∧
    ('.' ∉ info.name → info.extension = some info.name) ∧
    (info.name.getLast? = some '.' → info.extension = some []) ∧
    info.extension ≠ none := by
  have h1 : info.extension = some (afterLast '.' info.name) := by
    rw [create_ok_extension headers info h, splitOnChar_getLast?]
  refine ⟨h1, ?_, ?_, ?_⟩
  · intro hnd
    rw [h1, afterLast_not_mem ('.') info.name hnd]
  · intro hend
    rw [h1, afterLast_of_getLast_self ('.') info.name hend]
  · rw [h1]
    intro hc
    cases hc

/-- C9 witness: for filename `archive.tar.gz` the extension is `Some "gz"`;
the no-dot and trailing-dot clauses hold vacuously-instantiated via direct
application on suitable headers. -/
theorem C9_extension_always_some_witness :
    (createdInfo c9h).extension = some (afterLast ('.') (createdInfo c9h).name) ∧
    (createdInfo c9h).extension = some ("gz".data) ∧
    (createdInfo (mkHeaders "file" "nodot" "a/b")).extension = some ("nodot".data) ∧
    (createdInfo (mkHeaders "file" "end." "a/b")).extension = some [] := by
  refine ⟨(C9_extension_always_some c9h (createdInfo c9h) rfl).1, by decide, ?_, ?_⟩
  · have h := C9_extension_always_some (mkHeaders "file" "nodot" "a/b")
      (createdInfo (mkHeaders "file" "nodot" "a/b")) rfl
    have := h.2.1 (by decide)
    rw [this]
    decide
  · have h := C9_extension_always_some (mkHeaders "file" "end." "a/b")
      (createdInfo (mkHeaders "file" "end." "a/b")) rfl
    exact h.2.2.1 (by decide)

/-- C10: the invariant `file.size = Σ length(bytes)` holds after
`Uploader::new` (size 0 with no buffers) and is preserved by both
`capture_advance` and `capture`: they set `file.size` to the total of the
accumulated chunk lengths exactly when they store those chunks, and leave
both fields untouched otherwise. -/
theorem C10_size_invariant (ud : UploadData) (fn : Str) (ms : List Item)
    (s : Uploader) :
    (Uploader.new ms).file.size = sumLen (Uploader.new ms).bytes ∧
    (s.file.size = sumLen s.bytes →
      (Uploader.capture_advance ud s).state.file.size
        = sumLen (Uploader.capture_advance ud s).state.bytes) ∧
    (s.file.size = sumLen s.bytes →
      (Uploader.capture fn s).state.file.size
        = sumLen (Uploader.capture fn s).state.bytes) := by
  refine ⟨rfl, ?_, ?_⟩
  · intro hinv
    by_cases hok : (Uploader.capture_advance ud s).status = .ok
    · exact capture_loop_ok_size ud s.bytes s.file s.multipart hok
    · have hp := capture_loop_not_ok_state ud s.bytes s.file s.multipart hok
      show (capture_loop ud s.bytes s.file s.multipart).state.file.size
        = sumLen (capture_loop ud s.bytes s.file s.multipart).state.bytes
      rw [hp.1, hp.2, hinv]
  · intro hinv
    by_cases hok : (Uploader.capture fn s).status = .ok
    · exact capture_loop_ok_size _ s.bytes s.file s.multipart hok
    · have hp := capture_loop_not_ok_state
        { field := fn, lower_size := 0, upper_size := none, allowed_mimes := [] }
        s.bytes s.file s.multipart hok
      show (capture_loop
          { field := fn, lower_size := 0, upper_size := none, allowed_mimes := [] }
          s.bytes s.file s.multipart).state.file.size
        = sumLen (capture_loop
            { field := fn, lower_size := 0, upper_size := none, allowed_mimes := [] }
            s.bytes s.file s.multipart).state.bytes
      rw [hp.1, hp.2, hinv]

/-- C10 witness: capturing a 3-byte part from a fresh uploader yields a state
whose recorded size equals the stored buffers' total length. -/
theorem C10_size_invariant_witness :
    (Uploader.new [Item.ok pngPart]).file.size
        = sumLen (Uploader.new [Item.ok pngPart]).bytes ∧
    (Uploader.capture ("file".data) (Uploader.new [.ok pngPart])).state.file.size
        = sumLen (Uploader.capture ("file".data)
            (Uploader.new [.ok pngPart])).state.bytes := by
  have h := C10_size_invariant c3ud ("file".data) [Item.ok pngPart]
    (Uploader.new [.ok pngPart])
  exact ⟨h.1, h.2.2 rfl⟩

end Medullah
